import Mathlib

/-! Verification development for the `mgrs` package.  The wrapper class in
`src/mgrs/__init__.py` is embedded directly; the native conversion routines it
calls through ctypes (`core.rt.Convert_*`) are not part of src/ and are
modelled from the specification, as noted in the doc comment of each such
definition. -/

/-- Error kinds of the conversion engine, following the spec's error taxonomy
(§7).  `invalidPrecision` models the Python `ValueError` raised by
`MGRS.with_precision` for a precision increase as well as the native
precision-range rejection; `malformedReference` models the `core.MGRSError`
raised when a structurally invalid MGRS token is decoded. -/
inductive MGRSError where
  | malformedReference
  | invalidPrecision
  | invalidZone
  | outOfRange
deriving DecidableEq, Repr

/-- Digit character for a value `d < 10`, as produced by the native encoder's
decimal formatting. -/
def digitChar (d : ℕ) : Char := Char.ofNat (48 + d)

/-- Big-endian list of the `p` low decimal digits of `n` (left-zero-padded):
the digit run of an MGRS string at precision `p`. -/
def digitsBE : ℕ → ℕ → List ℕ
  | 0, _ => []
  | p + 1, n => digitsBE p (n / 10) ++ [n % 10]

/-- Characters of the `p`-digit run encoding `n`. -/
def digitsToChars (p n : ℕ) : List Char := (digitsBE p n).map digitChar

/-- Numeric value of a run of digit characters (decimal, big-endian). -/
def charsToNat (l : List Char) : ℕ := l.foldl (fun a c => 10 * a + (c.toNat - 48)) 0

/-- Modelled from the spec: the repeating 20-letter alphabet (I and O excluded)
used for the 100 km grid-square column and row letters (§4.5). -/
def letters20 : List Char :=
  ['A', 'B', 'C', 'D', 'E', 'F', 'G', 'H', 'J', 'K',
   'L', 'M', 'N', 'P', 'Q', 'R', 'S', 'T', 'U', 'V']

/-- Modelled from the spec: the alphabet's starting letter alternates with the
zone number's parity (§4.5). -/
def zoneOffset (z : ℕ) : ℕ := if z % 2 = 0 then 5 else 0

/-- Modelled from the spec: column letter of the 100 km square with column
index `i` (easting block number, 1–8 inside a zone) in zone `z`. -/
def colChar (z i : ℕ) : Char := letters20.getD ((i - 1 + zoneOffset z) % 20) 'A'

/-- Modelled from the spec: row letter of the 100 km square with row index `i`
(northing block number modulo 20) in zone `z`. -/
def rowChar (z i : ℕ) : Char := letters20.getD ((i + zoneOffset z) % 20) 'A'

/-- Modelled from the spec: recover the column index from the column letter,
rejecting letters that name no column of zone `z` (§4.5: a "letter combination
not present in the alphabet-offset table for that zone" is malformed). -/
def colDecode (z : ℕ) (c : Char) : Option ℕ :=
  match letters20.findIdx? (fun x => x == c) with
  | some i =>
    if (i + 20 - zoneOffset z) % 20 < 8 then some ((i + 20 - zoneOffset z) % 20 + 1) else none
  | none => none

/-- Modelled from the spec: recover the row index (mod 20) from the row
letter. -/
def rowDecode (z : ℕ) (c : Char) : Option ℕ :=
  (letters20.findIdx? (fun x => x == c)).map (fun i => (i + 20 - zoneOffset z) % 20)

/-- Modelled from the spec: band letters available for the northern
hemisphere.  The native code derives the band from the latitude; the decoder
only uses it to pin down the 2,000,000 m northing block in which the repeating
row alphabet is read (§4.5), so the model indexes the letters by that block. -/
def northBandLetters : List Char := ['N', 'P', 'Q', 'R', 'S']

/-- Modelled from the spec: band letters available for the southern
hemisphere, indexed like `northBandLetters`. -/
def southBandLetters : List Char := ['C', 'D', 'E', 'F', 'G']

/-- Modelled from the spec: band letter of the zone designator, from the
hemisphere and the 2,000,000 m northing block. -/
def bandChar (hem : Char) (block : ℕ) : Char :=
  (if hem = 'N' then northBandLetters else southBandLetters).getD block 'A'

/-- Modelled from the spec: recover hemisphere and northing block from the
band letter, rejecting letters outside the band tables. -/
def bandDecode (c : Char) : Option (Char × ℕ) :=
  match northBandLetters.findIdx? (fun x => x == c) with
  | some i => some ('N', i)
  | none =>
    match southBandLetters.findIdx? (fun x => x == c) with
    | some i => some ('S', i)
    | none => none

/-- Modelled from the spec: the string built by the native
`Convert_UTM_To_MGRS` (not in src/): two zero-padded zone digits, the band
letter, the parity-offset column and row letters of the 100 km square, and the
easting and northing offsets within that square truncated — not rounded — to
`p` digits each (§4.5). -/
def encodeChars (z : ℕ) (hem : Char) (e n : ℚ) (p : ℕ) : List Char :=
  let m : ℕ := (⌊e⌋).toNat
  let nm : ℕ := (⌊n⌋).toNat
  [digitChar (z / 10), digitChar (z % 10), bandChar hem (nm / 2000000),
    colChar z (m / 100000), rowChar z ((nm / 100000) % 20)] ++
    digitsToChars p ((m % 100000) / 10 ^ (5 - p)) ++
    digitsToChars p ((nm % 100000) / 10 ^ (5 - p))

/-- Modelled from the spec: the native `Convert_MGRS_To_UTM` (not in src/).
Parses a UTM-derived MGRS token — two zone digits, band letter, column and row
letters, then an even run of digits — and reconstructs the planar coordinate
as the 100 km square origin plus the decoded offset (§4.5).  Any structurally
invalid token yields `none` (the spec's `MalformedReference`); the polar (UPS
pseudo-zone) form is outside the scope of the claims and is not modelled. -/
def decodeChars : List Char → Option (ℤ × Char × ℚ × ℚ)
  | z1 :: z2 :: b :: c :: r :: ds =>
    if z1.isDigit ∧ z2.isDigit ∧ ds.all Char.isDigit then
      if ds.length = 2 * (ds.length / 2) ∧ ds.length / 2 ≤ 5 ∧
          1 ≤ (z1.toNat - 48) * 10 + (z2.toNat - 48) ∧
          (z1.toNat - 48) * 10 + (z2.toNat - 48) ≤ 60 then
        (bandDecode b).bind (fun hb =>
          (colDecode ((z1.toNat - 48) * 10 + (z2.toNat - 48)) c).bind (fun colIdx =>
            (rowDecode ((z1.toNat - 48) * 10 + (z2.toNat - 48)) r).map (fun rowIdx =>
              ((((z1.toNat - 48) * 10 + (z2.toNat - 48) : ℕ) : ℤ), hb.1,
                ((colIdx * 100000 +
                  charsToNat (ds.take (ds.length / 2)) * 10 ^ (5 - ds.length / 2) : ℕ) : ℚ),
                ((hb.2 * 2000000 + rowIdx * 100000 +
                  charsToNat (ds.drop (ds.length / 2)) * 10 ^ (5 - ds.length / 2) : ℕ) : ℚ)))))
      else none
    else none
  | _ => none

/-- The `MGRS` wrapper class of `src/mgrs/__init__.py`: it holds the reference
string `_mgrs`. -/
structure MGRS where
  mgrs : String
deriving DecidableEq, Repr

/-- Method `MGRS.to_utm` (src lines 213–241): delegates to the native decoder
on the stored string. -/
def MGRS.to_utm (m : MGRS) : Option (ℤ × Char × ℚ × ℚ) := decodeChars m.mgrs.data

/-- Constructor `MGRS.__init__` (src lines 10–12): stores the string and makes
a dummy `to_utm` call so that an ill-formed string raises
(`MalformedReference`). -/
def MGRS.ofString (s : String) : Except MGRSError MGRS :=
  if (decodeChars s.data).isSome then .ok ⟨s⟩ else .error .malformedReference

/-- Property `MGRS.precision` (src lines 63–65): `(len(self.mgrs) - 5) // 2`
with Python floor division, which on `ℤ` is `/`. -/
def MGRS.precision (m : MGRS) : ℤ := ((m.mgrs.length : ℤ) - 5) / 2

/-- Python slice `l[:k]`: for nonnegative `k` the first `k` elements, for
negative `k` all but the last `-k` (clamped at the empty list). -/
def pySliceTo (l : List Char) (k : ℤ) : List Char :=
  if 0 ≤ k then l.take k.toNat else l.take (l.length - (-k).toNat)

/-- Method `MGRS.with_precision` (src lines 87–102): raises `ValueError`
("Cannot increase precision", the spec's `InvalidPrecision`) when the target
exceeds the current precision, and otherwise rebuilds an `MGRS` from the plain
string slice `self.mgrs[: 5 + 2 * precision]`. -/
def MGRS.with_precision (m : MGRS) (precision : ℤ) : Except MGRSError MGRS :=
  if m.precision < precision then .error .invalidPrecision
  else MGRS.ofString (String.mk (pySliceTo m.mgrs.data (5 + 2 * precision)))

/-- Classmethod `MGRS.from_utm` (src lines 104–146) composed with the native
`Convert_UTM_To_MGRS`.  Modelled from the spec: the façade validates zone ∈
[1,60], precision ∈ [0,5] and the planar envelope before encoding (§4.6, §3);
the wrapper then feeds the encoded string through the validating
constructor. -/
def MGRS.from_utm (zone : ℤ) (hemisphere : Char) (easting northing : ℚ)
    (precision : ℤ) : Except MGRSError MGRS :=
  if zone < 1 ∨ 60 < zone then .error .invalidZone
  else if precision < 0 ∨ 5 < precision then .error .invalidPrecision
  else if ¬(hemisphere = 'N' ∨ hemisphere = 'S') then .error .outOfRange
  else if easting < 100000 ∨ 900000 ≤ easting ∨ northing < 0 ∨ 10000000 ≤ northing then
    .error .outOfRange
  else
    MGRS.ofString
      (String.mk (encodeChars zone.toNat hemisphere easting northing precision.toNat))

/-- Classmethod `MGRS.from_lat_lon` (src lines 148–182).  Modelled from the
spec: the native geodetic→MGRS projection is not in src/, so its output string
is abstracted as `nativeOutput`; the façade validates precision ∈ [0,5] (§4.6)
and the wrapper feeds the native string through the validating constructor. -/
def MGRS.from_lat_lon (precision : ℤ) (nativeOutput : String) : Except MGRSError MGRS :=
  if precision < 0 ∨ 5 < precision then .error .invalidPrecision
  else MGRS.ofString nativeOutput

/-- Classmethod `MGRS.is_valid` (src lines 243–249): a string is valid exactly
when the constructor's validating conversion succeeds. -/
def MGRS.is_valid (s : String) : Bool := (decodeChars s.data).isSome

/-- Decidable equality of `Except` results, used to evaluate the wrapper's
operations on concrete inputs. -/
instance {ε α : Type} [DecidableEq ε] [DecidableEq α] : DecidableEq (Except ε α) := fun a b =>
  match a, b with
  | .ok x, .ok y => decidable_of_iff (x = y) (by simp)
  | .error x, .error y => decidable_of_iff (x = y) (by simp)
  | .ok _, .error _ => isFalse (fun hc => by cases hc)
  | .error _, .ok _ => isFalse (fun hc => by cases hc)

theorem length_digitsBE (p : ℕ) : ∀ n : ℕ, (digitsBE p n).length = p := by
  induction p with
  | zero => intro n; rfl
  | succ p ih => intro n; simp [digitsBE, ih]

theorem length_digitsToChars (p n : ℕ) : (digitsToChars p n).length = p := by
  simp [digitsToChars, length_digitsBE]

theorem mem_digitsBE_lt (p : ℕ) : ∀ n d : ℕ, d ∈ digitsBE p n → d < 10 := by
  induction p with
  | zero => intro n d h; simp [digitsBE] at h
  | succ p ih =>
    intro n d h
    simp only [digitsBE, List.mem_append, List.mem_singleton] at h
    rcases h with h | h
    · exact ih _ _ h
    · omega

theorem isDigit_digitChar (d : ℕ) (h : d < 10) : (digitChar d).isDigit = true := by
  unfold digitChar; interval_cases d <;> decide

theorem toNat_digitChar (d : ℕ) (h : d < 10) : (digitChar d).toNat - 48 = d := by
  unfold digitChar; interval_cases d <;> decide

theorem all_isDigit_digitsToChars (p n : ℕ) :
    (digitsToChars p n).all Char.isDigit = true := by
  rw [List.all_eq_true]
  intro c hc
  simp only [digitsToChars, List.mem_map] at hc
  obtain ⟨d, hd, rfl⟩ := hc
  exact isDigit_digitChar d (mem_digitsBE_lt p n d hd)

theorem charsToNat_digitsToChars (p : ℕ) :
    ∀ n a : ℕ, n < 10 ^ p →
      (digitsToChars p n).foldl (fun x c => 10 * x + (c.toNat - 48)) a = a * 10 ^ p + n := by
  induction p with
  | zero =>
    intro n a h
    interval_cases n
    simp [digitsToChars, digitsBE, charsToNat]
  | succ p ih =>
    intro n a h
    have hdiv : n / 10 < 10 ^ p := by
      rw [Nat.div_lt_iff_lt_mul (by norm_num)]
      calc n < 10 ^ (p + 1) := h
        _ = 10 ^ p * 10 := by ring
    have : digitsToChars (p + 1) n = digitsToChars p (n / 10) ++ [digitChar (n % 10)] := by
      simp [digitsToChars, digitsBE]
    rw [this, List.foldl_append, ih (n / 10) a hdiv]
    simp only [List.foldl_cons, List.foldl_nil]
    rw [toNat_digitChar (n % 10) (by omega)]
    have hmod := Nat.div_add_mod n 10
    calc 10 * (a * 10 ^ p + n / 10) + n % 10
        = a * (10 ^ p * 10) + (10 * (n / 10) + n % 10) := by ring
      _ = a * 10 ^ (p + 1) + n := by rw [hmod]; ring

theorem charsToNat_encode (p n : ℕ) (h : n < 10 ^ p) :
    charsToNat (digitsToChars p n) = n := by
  unfold charsToNat
  rw [charsToNat_digitsToChars p n 0 h]
  omega

theorem zoneOffset_cases (z : ℕ) : zoneOffset z = 0 ∨ zoneOffset z = 5 := by
  unfold zoneOffset; split
  · exact Or.inr rfl
  · exact Or.inl rfl

theorem colDecode_colChar (z i : ℕ) (h1 : 1 ≤ i) (h2 : i ≤ 8) :
    colDecode z (colChar z i) = some i := by
  unfold colDecode colChar
  rcases zoneOffset_cases z with h | h <;> rw [h] <;> interval_cases i <;> decide

theorem rowDecode_rowChar (z i : ℕ) (h : i < 20) :
    rowDecode z (rowChar z i) = some i := by
  unfold rowDecode rowChar
  rcases zoneOffset_cases z with hz | hz <;> rw [hz] <;> interval_cases i <;> decide

theorem bandDecode_bandChar (hem : Char) (block : ℕ)
    (hh : hem = 'N' ∨ hem = 'S') (hb : block < 5) :
    bandDecode (bandChar hem block) = some (hem, block) := by
  rcases hh with rfl | rfl <;> (unfold bandDecode bandChar; interval_cases block <;> decide)

theorem decodeChars_encodeChars (z : ℕ) (hem : Char) (e n : ℚ) (p : ℕ)
    (hz1 : 1 ≤ z) (hz2 : z ≤ 60) (hp : p ≤ 5) (hh : hem = 'N' ∨ hem = 'S')
    (he1 : 100000 ≤ e) (he2 : e < 900000) (hn1 : 0 ≤ n) (hn2 : n < 10000000) :
    decodeChars (encodeChars z hem e n p) =
      some ((z : ℤ), hem,
        ((⌊e⌋.toNat / 100000 * 100000 +
          ⌊e⌋.toNat % 100000 / 10 ^ (5 - p) * 10 ^ (5 - p) : ℕ) : ℚ),
        ((⌊n⌋.toNat / 100000 * 100000 +
          ⌊n⌋.toNat % 100000 / 10 ^ (5 - p) * 10 ^ (5 - p) : ℕ) : ℚ)) := by
  have hfm1 : (100000 : ℤ) ≤ ⌊e⌋ := Int.le_floor.mpr (by exact_mod_cast he1)
  have hfm2 : ⌊e⌋ < 900000 := by
    have := Int.floor_le e
    exact_mod_cast lt_of_le_of_lt this he2
  have hfn1 : (0 : ℤ) ≤ ⌊n⌋ := Int.floor_nonneg.mpr hn1
  have hfn2 : ⌊n⌋ < 10000000 := by
    have := Int.floor_le n
    exact_mod_cast lt_of_le_of_lt this hn2
  set m := ⌊e⌋.toNat with hm
  set nm := ⌊n⌋.toNat with hnm
  have hm1 : 100000 ≤ m := by omega
  have hm2 : m < 900000 := by omega
  have hnm2 : nm < 10000000 := by omega
  have hXlen : (digitsToChars p (m % 100000 / 10 ^ (5 - p))).length = p :=
    length_digitsToChars _ _
  have hds : (digitsToChars p (m % 100000 / 10 ^ (5 - p)) ++
      digitsToChars p (nm % 100000 / 10 ^ (5 - p))).length = 2 * p := by
    simp only [List.length_append, length_digitsToChars]
    omega
  have hpow5 : (10 : ℕ) ^ p * 10 ^ (5 - p) = 100000 := by
    rw [← pow_add]
    have hp5 : p + (5 - p) = 5 := by omega
    rw [hp5]; norm_num
  have hXbound : m % 100000 / 10 ^ (5 - p) < 10 ^ p := by
    rw [Nat.div_lt_iff_lt_mul (pow_pos (by norm_num) _), hpow5]
    exact Nat.mod_lt _ (by norm_num)
  have hYbound : nm % 100000 / 10 ^ (5 - p) < 10 ^ p := by
    rw [Nat.div_lt_iff_lt_mul (pow_pos (by norm_num) _), hpow5]
    exact Nat.mod_lt _ (by norm_num)
  show decodeChars
      (digitChar (z / 10) :: digitChar (z % 10) :: bandChar hem (nm / 2000000) ::
        colChar z (m / 100000) :: rowChar z (nm / 100000 % 20) ::
        (digitsToChars p (m % 100000 / 10 ^ (5 - p)) ++
          digitsToChars p (nm % 100000 / 10 ^ (5 - p)))) = _
  rw [decodeChars]
  have hc1 : (digitChar (z / 10)).isDigit = true ∧ (digitChar (z % 10)).isDigit = true ∧
      (digitsToChars p (m % 100000 / 10 ^ (5 - p)) ++
        digitsToChars p (nm % 100000 / 10 ^ (5 - p))).all Char.isDigit = true :=
    ⟨isDigit_digitChar _ (by omega), isDigit_digitChar _ (by omega), by
      rw [List.all_append, all_isDigit_digitsToChars, all_isDigit_digitsToChars]; rfl⟩
  rw [if_pos hc1]
  have hz1' : (digitChar (z / 10)).toNat - 48 = z / 10 := toNat_digitChar _ (by omega)
  have hz2' : (digitChar (z % 10)).toNat - 48 = z % 10 := toNat_digitChar _ (by omega)
  rw [hz1', hz2']
  have hzz : z / 10 * 10 + z % 10 = z := by omega
  rw [hzz, hds]
  have h2p : 2 * p / 2 = p := by omega
  rw [h2p]
  rw [if_pos ⟨rfl, hp, hz1, hz2⟩]
  rw [bandDecode_bandChar hem (nm / 2000000) hh (by omega),
    colDecode_colChar z (m / 100000) (by omega) (by omega),
    rowDecode_rowChar z (nm / 100000 % 20) (by omega)]
  simp only [Option.some_bind, Option.map_some']
  rw [List.take_left' hXlen, List.drop_left' hXlen]
  rw [charsToNat_encode p _ hXbound, charsToNat_encode p _ hYbound]
  have hnrow : nm / 2000000 * 2000000 + nm / 100000 % 20 * 100000 =
      nm / 100000 * 100000 := by omega
  rw [hnrow]

theorem length_encodeChars (z : ℕ) (hem : Char) (e n : ℚ) (p : ℕ) :
    (encodeChars z hem e n p).length = 5 + 2 * p := by
  simp only [encodeChars, List.length_append, List.length_cons, List.length_nil,
    length_digitsToChars]
  omega

theorem decodeChars_length (l : List Char) (h : (decodeChars l).isSome = true) :
    ∃ p : ℕ, p ≤ 5 ∧ l.length = 5 + 2 * p := by
  rcases l with _ | ⟨z1, _ | ⟨z2, _ | ⟨b, _ | ⟨c, _ | ⟨r, ds⟩⟩⟩⟩⟩
  · simp [decodeChars] at h
  · simp [decodeChars] at h
  · simp [decodeChars] at h
  · simp [decodeChars] at h
  · simp [decodeChars] at h
  · rw [decodeChars] at h
    by_cases h1 : (z1.isDigit = true ∧ z2.isDigit = true ∧ ds.all Char.isDigit = true)
    · rw [if_pos h1] at h
      by_cases h2 : (ds.length = 2 * (ds.length / 2) ∧ ds.length / 2 ≤ 5 ∧
          1 ≤ (z1.toNat - 48) * 10 + (z2.toNat - 48) ∧
          (z1.toNat - 48) * 10 + (z2.toNat - 48) ≤ 60)
      · refine ⟨ds.length / 2, h2.2.1, ?_⟩
        have h21 := h2.1
        simp only [List.length_cons]
        omega
      · rw [if_neg h2] at h
        simp at h
    · rw [if_neg h1] at h
      simp at h

theorem ofString_ok (s : String) (m : MGRS) (h : MGRS.ofString s = .ok m) :
    m = ⟨s⟩ ∧ (decodeChars s.data).isSome = true := by
  unfold MGRS.ofString at h
  by_cases hd : (decodeChars s.data).isSome = true
  · rw [if_pos hd] at h
    injection h with h'
    exact ⟨h'.symm, hd⟩
  · rw [if_neg hd] at h
    exact Except.noConfusion h

theorem ofString_ok_of_isSome (s : String) (hd : (decodeChars s.data).isSome = true) :
    MGRS.ofString s = .ok ⟨s⟩ := by
  unfold MGRS.ofString
  rw [if_pos hd]

theorem ofString_err (s : String) (err : MGRSError) (h : MGRS.ofString s = .error err) :
    err = .malformedReference := by
  unfold MGRS.ofString at h
  by_cases hd : (decodeChars s.data).isSome = true
  · rw [if_pos hd] at h
    exact Except.noConfusion h
  · rw [if_neg hd] at h
    injection h with h'
    exact h'.symm

/-- C1: for every valid UTM input (zone, hemisphere, easting, northing) inside
a zone's valid envelope, converting to an MGRS reference at precision 5 and
converting that reference back to UTM returns the same zone and hemisphere,
and an easting and northing each within 1 m of the originals. -/
theorem utm_mgrs_utm_roundtrip (zone : ℤ) (hem : Char) (e n : ℚ)
    (hz : 1 ≤ zone ∧ zone ≤ 60) (hh : hem = 'N' ∨ hem = 'S')
    (he : 100000 ≤ e ∧ e < 900000) (hn : 0 ≤ n ∧ n < 10000000) :
    ∃ m : MGRS, MGRS.from_utm zone hem e n 5 = .ok m ∧
      ∃ eo no : ℚ, m.to_utm = some (zone, hem, eo, no) ∧
        |e - eo| < 1 ∧ |n - no| < 1 := by
  have hz1 : 1 ≤ zone.toNat := by omega
  have hz2 : zone.toNat ≤ 60 := by omega
  have hdec := decodeChars_encodeChars zone.toNat hem e n 5 hz1 hz2 (by norm_num) hh
    he.1 he.2 hn.1 hn.2
  have hsimp : ∀ k : ℕ,
      k / 100000 * 100000 + k % 100000 / 10 ^ (5 - 5) * 10 ^ (5 - 5) = k := by
    intro k
    simp only [Nat.sub_self, pow_zero, Nat.div_one, mul_one]
    omega
  rw [hsimp, hsimp] at hdec
  have hzcast : ((zone.toNat : ℕ) : ℤ) = zone := Int.toNat_of_nonneg (by omega)
  rw [hzcast] at hdec
  have hfl : (0 : ℤ) ≤ ⌊e⌋ := Int.floor_nonneg.mpr (by linarith [he.1])
  have hfn : (0 : ℤ) ≤ ⌊n⌋ := Int.floor_nonneg.mpr hn.1
  have hcaste : ((⌊e⌋.toNat : ℕ) : ℚ) = ((⌊e⌋ : ℤ) : ℚ) := by
    rw [← Int.cast_natCast, Int.toNat_of_nonneg hfl]
  have hcastn : ((⌊n⌋.toNat : ℕ) : ℚ) = ((⌊n⌋ : ℤ) : ℚ) := by
    rw [← Int.cast_natCast, Int.toNat_of_nonneg hfn]
  have hiss :
      (decodeChars (String.mk (encodeChars zone.toNat hem e n 5)).data).isSome = true := by
    show (decodeChars (encodeChars zone.toNat hem e n 5)).isSome = true
    rw [hdec]
    rfl
  refine ⟨⟨String.mk (encodeChars zone.toNat hem e n 5)⟩, ?_,
    ((⌊e⌋.toNat : ℕ) : ℚ), ((⌊n⌋.toNat : ℕ) : ℚ), ?_, ?_, ?_⟩
  · unfold MGRS.from_utm
    rw [if_neg (by omega), if_neg (by norm_num), if_neg (not_not_intro hh),
      if_neg (by push_neg; exact ⟨he.1, he.2, hn.1, hn.2⟩)]
    exact ofString_ok_of_isSome _ hiss
  · show decodeChars (encodeChars zone.toNat hem e n 5) = _
    exact hdec
  · rw [hcaste]
    have h1 := Int.floor_le e
    have h2 := Int.sub_one_lt_floor e
    rw [abs_of_nonneg (by linarith)]
    linarith
  · rw [hcastn]
    have h1 := Int.floor_le n
    have h2 := Int.sub_one_lt_floor n
    rw [abs_of_nonneg (by linarith)]
    linarith

/-- C1 witness: the round trip at zone 31 N, easting 448251 m, northing
5411932 m. -/
theorem utm_mgrs_utm_roundtrip_w :
    ∃ m : MGRS, MGRS.from_utm 31 'N' 448251 5411932 5 = .ok m ∧
      ∃ eo no : ℚ, m.to_utm = some (31, 'N', eo, no) ∧
        |(448251 : ℚ) - eo| < 1 ∧ |(5411932 : ℚ) - no| < 1 :=
  utm_mgrs_utm_roundtrip 31 'N' 448251 5411932 ⟨by decide, by decide⟩ (Or.inl rfl)
    ⟨by decide, by decide⟩ ⟨by decide, by decide⟩

theorem with_precision_id_of_len (r : MGRS) (hd : (decodeChars r.mgrs.data).isSome = true)
    (q : ℤ) (hq : 0 ≤ q) (hlen : (r.mgrs.data.length : ℤ) = 5 + 2 * q) :
    r.with_precision q = .ok r := by
  have hprec : r.precision = q := by
    unfold MGRS.precision
    have hb : r.mgrs.length = r.mgrs.data.length := rfl
    omega
  unfold MGRS.with_precision
  rw [hprec, if_neg (lt_irrefl _)]
  have hslice : pySliceTo r.mgrs.data (5 + 2 * q) = r.mgrs.data := by
    unfold pySliceTo
    rw [if_pos (by omega)]
    have h1 : (5 + 2 * q).toNat = r.mgrs.data.length := by omega
    rw [h1, List.take_length]
  rw [hslice]
  have hs : String.mk r.mgrs.data = r.mgrs := rfl
  rw [hs]
  unfold MGRS.ofString
  rw [if_pos hd]

/-- C10: with_precision at the reference's current precision is accepted and
returns the same reference. -/
theorem with_precision_current_id (s : String) (m : MGRS)
    (h : MGRS.ofString s = .ok m) : m.with_precision m.precision = .ok m := by
  obtain ⟨rfl, hd⟩ := ofString_ok s m h
  obtain ⟨p, hp5, hlen⟩ := decodeChars_length s.data hd
  have hprec : (MGRS.mk s).precision = (p : ℤ) := by
    unfold MGRS.precision
    have hb : (MGRS.mk s).mgrs.length = s.data.length := rfl
    omega
  rw [hprec]
  apply with_precision_id_of_len _ hd _ (by omega)
  show ((s.data.length : ℕ) : ℤ) = 5 + 2 * (p : ℤ)
  omega

/-- C10 witness: the identity at the precision-0 reference "31QDE". -/
theorem with_precision_current_id_w :
    MGRS.with_precision ⟨"31QDE"⟩ (MGRS.precision ⟨"31QDE"⟩) = .ok ⟨"31QDE"⟩ :=
  with_precision_current_id "31QDE" ⟨"31QDE"⟩ (by decide)

/-- C6: reducing a reference to precision 2 twice gives the same reference as
reducing it once. -/
theorem with_precision_two_idem (m r : MGRS) (h : m.with_precision 2 = .ok r) :
    r.with_precision 2 = .ok r := by
  unfold MGRS.with_precision at h
  by_cases hg : m.precision < 2
  · rw [if_pos hg] at h
    exact Except.noConfusion h
  · rw [if_neg hg] at h
    obtain ⟨rfl, hd⟩ := ofString_ok _ _ h
    have hpre : (2 : ℤ) ≤ m.precision := not_lt.mp hg
    have hlenm : 9 ≤ m.mgrs.data.length := by
      unfold MGRS.precision at hpre
      have hb : m.mgrs.length = m.mgrs.data.length := rfl
      omega
    have hslice : pySliceTo m.mgrs.data (5 + 2 * 2) = m.mgrs.data.take 9 := rfl
    apply with_precision_id_of_len _ hd 2 (by norm_num)
    show ((pySliceTo m.mgrs.data (5 + 2 * 2)).length : ℤ) = 5 + 2 * 2
    rw [hslice, List.length_take]
    omega

/-- C6 witness: idempotence at the precision-5 reference "31QDE1234567890". -/
theorem with_precision_two_idem_w :
    MGRS.with_precision ⟨"31QDE1234"⟩ 2 = .ok ⟨"31QDE1234"⟩ :=
  with_precision_two_idem ⟨"31QDE1234567890"⟩ ⟨"31QDE1234"⟩ (by decide)

/-- C4: requesting a precision strictly above the reference's current
precision fails with InvalidPrecision (the Python `ValueError`) and returns no
value. -/
theorem with_precision_increase_fails (m : MGRS) (p : ℤ) (h : m.precision < p) :
    m.with_precision p = .error .invalidPrecision := by
  unfold MGRS.with_precision
  rw [if_pos h]

/-- C4 witness: increasing the precision-0 reference "31QDE" to precision 3 is
rejected. -/
theorem with_precision_increase_fails_w :
    MGRS.with_precision ⟨"31QDE"⟩ 3 = .error .invalidPrecision :=
  with_precision_increase_fails ⟨"31QDE"⟩ 3 (by decide)

/-- C7: decoding the token "31Q" (too short) and the token "31QDO" (disallowed
letter O in the square-letter position) both fail with MalformedReference and
yield no value. -/
theorem malformed_tokens_rejected :
    MGRS.ofString "31Q" = .error .malformedReference ∧
    MGRS.ofString "31QDO" = .error .malformedReference :=
  ⟨by decide, by decide⟩

/-- C8: every successfully constructed reference has precision in [0,5] and a
string of length 5 + 2·precision, and a reference encoded by from_utm at
precision p reads back precision p. -/
theorem precision_length_invariant :
    (∀ s m, MGRS.ofString s = .ok m →
      0 ≤ m.precision ∧ m.precision ≤ 5 ∧ (m.mgrs.length : ℤ) = 5 + 2 * m.precision) ∧
    (∀ zone hem e n p m, MGRS.from_utm zone hem e n p = .ok m → m.precision = p) := by
  constructor
  · intro s m h
    obtain ⟨rfl, hd⟩ := ofString_ok s m h
    obtain ⟨p, hp5, hlen⟩ := decodeChars_length s.data hd
    unfold MGRS.precision
    have hb : (MGRS.mk s).mgrs.length = s.data.length := rfl
    omega
  · intro zone hem e n p m h
    unfold MGRS.from_utm at h
    split_ifs at h with h1 h2 h3 h4
    obtain ⟨rfl, hd⟩ := ofString_ok _ _ h
    have hlen : (String.mk (encodeChars zone.toNat hem e n p.toNat)).length
        = 5 + 2 * p.toNat := length_encodeChars _ _ _ _ _
    unfold MGRS.precision
    have hb : (MGRS.mk (String.mk (encodeChars zone.toNat hem e n p.toNat))).mgrs.length
        = 5 + 2 * p.toNat := hlen
    omega

/-- C8 witness: the invariant at the precision-5 reference "31QDE1234567890"
and the precision read-back of a precision-3 encoding. -/
theorem precision_length_invariant_w :
    (0 ≤ MGRS.precision ⟨"31QDE1234567890"⟩ ∧ MGRS.precision ⟨"31QDE1234567890"⟩ ≤ 5 ∧
      ((MGRS.mk "31QDE1234567890").mgrs.length : ℤ) =
        5 + 2 * MGRS.precision ⟨"31QDE1234567890"⟩) ∧
    MGRS.precision ⟨"31QDQ482119"⟩ = 3 :=
  ⟨precision_length_invariant.1 "31QDE1234567890" ⟨"31QDE1234567890"⟩ (by decide),
   precision_length_invariant.2 31 'N' 448251 5411932 3 ⟨"31QDQ482119"⟩ (by decide)⟩

theorem to_utm_isSome_of_ok (s : String) (m : MGRS) (h : MGRS.ofString s = .ok m) :
    m.to_utm.isSome = true := by
  obtain ⟨rfl, hd⟩ := ofString_ok s m h
  exact hd

/-- C9: the constructor validates its string through a to_utm conversion, so
every successfully constructed MGRS holds a string on which to_utm succeeds —
an invariant preserved by from_utm, from_lat_lon and with_precision, which all
return their result through the constructor. -/
theorem constructed_references_decode :
    (∀ s m, MGRS.ofString s = .ok m → m.to_utm.isSome = true) ∧
    (∀ zone hem e n p m, MGRS.from_utm zone hem e n p = .ok m → m.to_utm.isSome = true) ∧
    (∀ p s m, MGRS.from_lat_lon p s = .ok m → m.to_utm.isSome = true) ∧
    (∀ m p r, MGRS.with_precision m p = .ok r → r.to_utm.isSome = true) := by
  refine ⟨to_utm_isSome_of_ok, ?_, ?_, ?_⟩
  · intro zone hem e n p m h
    unfold MGRS.from_utm at h
    split_ifs at h
    exact to_utm_isSome_of_ok _ _ h
  · intro p s m h
    unfold MGRS.from_lat_lon at h
    split_ifs at h
    exact to_utm_isSome_of_ok _ _ h
  · intro m p r h
    unfold MGRS.with_precision at h
    split_ifs at h
    exact to_utm_isSome_of_ok _ _ h

/-- C9 witness: a constructed reference's to_utm succeeds. -/
theorem constructed_references_decode_w :
    (MGRS.to_utm ⟨"31QDE1234567890"⟩).isSome = true :=
  constructed_references_decode.1 "31QDE1234567890" ⟨"31QDE1234567890"⟩ (by decide)

/-- C3: with_precision on the precision-5 reference "31QDE1234567890" with
target 2 returns the raw 9-character prefix "31QDE1234".  Its digit runs are
not the truncations of the original runs: the new northing run "34" is made of
the third and fourth easting digits, so the decoded northing moves from
4467890 m (per-run truncation would keep 4467000 m) to 4434000 m. -/
theorem with_precision_resplits_digits :
    MGRS.with_precision ⟨"31QDE1234567890"⟩ 2 = .ok ⟨"31QDE1234"⟩ ∧
    MGRS.to_utm ⟨"31QDE1234567890"⟩ = some (31, 'N', 412345, 4467890) ∧
    MGRS.to_utm ⟨"31QDE1234"⟩ = some (31, 'N', 412000, 4434000) :=
  ⟨by decide, by decide, by decide⟩

/-- C5 counterexample: with_precision applied to the precision-5 reference
"31QDE1234567890" with the negative precision -1 is not rejected with
InvalidPrecision — the string is sliced to "31Q" and the constructor's
validation fails with MalformedReference instead. -/
theorem negative_precision_not_rejected :
    MGRS.with_precision ⟨"31QDE1234567890"⟩ (-1) = .error .malformedReference ∧
    ¬MGRS.with_precision ⟨"31QDE1234567890"⟩ (-1) = .error .invalidPrecision :=
  ⟨by decide, by decide⟩

/-- C5 amended: from_utm and from_lat_lon validate precision ∈ [0,5] and fail
with InvalidPrecision otherwise (for an accepted zone); with_precision rejects
only a precision above the current one with InvalidPrecision, and for any
target not exceeding the current precision — negative targets included — the
only possible failure is the constructor's MalformedReference. -/
theorem precision_validation :
    (∀ zone hem e n p, ¬(zone < 1 ∨ 60 < zone) → (p < 0 ∨ 5 < p) →
      MGRS.from_utm zone hem e n p = .error .invalidPrecision) ∧
    (∀ p s, (p < 0 ∨ 5 < p) → MGRS.from_lat_lon p s = .error .invalidPrecision) ∧
    (∀ m p, MGRS.precision m < p → MGRS.with_precision m p = .error .invalidPrecision) ∧
    (∀ m p err, p ≤ MGRS.precision m → MGRS.with_precision m p = .error err →
      err = .malformedReference) := by
  refine ⟨?_, ?_, ?_, ?_⟩
  · intro zone hem e n p hz hp
    unfold MGRS.from_utm
    rw [if_neg hz, if_pos hp]
  · intro p s hp
    unfold MGRS.from_lat_lon
    rw [if_pos hp]
  · intro m p h
    unfold MGRS.with_precision
    rw [if_pos h]
  · intro m p err h1 h2
    unfold MGRS.with_precision at h2
    rw [if_neg (not_lt.mpr h1)] at h2
    exact ofString_err _ _ h2

/-- C5 amended witness: precision 6 rejected by from_utm, -2 rejected by
from_lat_lon, an increase rejected by with_precision, and the failure of a
negative target classified as MalformedReference. -/
theorem precision_validation_w :
    MGRS.from_utm 31 'N' 448251 5411932 6 = .error .invalidPrecision ∧
    MGRS.from_lat_lon (-2) "31QDE" = .error .invalidPrecision ∧
    MGRS.with_precision ⟨"31QDE"⟩ 1 = .error .invalidPrecision ∧
    MGRSError.malformedReference = .malformedReference :=
  ⟨precision_validation.1 31 'N' 448251 5411932 6 (by decide) (by decide),
   precision_validation.2.1 (-2) "31QDE" (by decide),
   precision_validation.2.2.1 ⟨"31QDE"⟩ 1 (by decide),
   precision_validation.2.2.2 ⟨"31QDE1234567890"⟩ (-1) .malformedReference
     (by decide) (by decide)⟩
